import Mathlib

/-!
# WhatSPY — verification of the specification against the code

Shallow embedding of `whatS.py` (class `WhatSPY`). Python strings are
modelled as `List Char`; the character-level string operations used by the
program (`re.sub` over a character class, `str.isdigit`, slicing) are
embedded below. The embedding of `str.isdigit` is restricted to the ASCII
digits `0`-`9` (CPython additionally accepts non-ASCII Unicode digit code
points; no claim below depends on those).
-/
/-- The character class matched by Python's regex `\s` on `str` patterns:
the ASCII whitespace characters 9-13 and 32 together with the Unicode
whitespace code points recognised by CPython
(0x1c-0x1f, 0x85, 0xa0, 0x1680, 0x2000-0x200a, 0x2028, 0x2029,
0x202f, 0x205f, 0x3000). -/
def pyRegexSpace (c : Char) : Bool :=
  let n := c.toNat
  (decide (9 ≤ n) && decide (n ≤ 13)) || decide (n = 32) ||
  (decide (28 ≤ n) && decide (n ≤ 31)) || decide (n = 0x85) || decide (n = 0xa0) ||
  decide (n = 0x1680) || (decide (0x2000 ≤ n) && decide (n ≤ 0x200a)) ||
  decide (n = 0x2028) || decide (n = 0x2029) || decide (n = 0x202f) ||
  decide (n = 0x205f) || decide (n = 0x3000)

/-- The character class of the regex `[\s\-\(\)\+]` used in
`validate_phone_number` (line 134) and `format_phone_number` (line 156). -/
def stripClass (c : Char) : Bool :=
  pyRegexSpace c || decide (c = '-') || decide (c = '(') || decide (c = ')') ||
  decide (c = '+')

/-- Model: `re.sub(r'[\s\-\(\)\+]', '', s)`: delete every character of the class,
keeping the rest in order. -/
def re_sub_strip : List Char → List Char
  | [] => []
  | c :: cs => if stripClass c then re_sub_strip cs else c :: re_sub_strip cs

/-- Model: `WhatSPY.format_phone_number` (lines 146-156). -/
def format_phone_number (s : List Char) : List Char :=
  re_sub_strip s

/-- An ASCII digit `0`-`9`. -/
def isAsciiDigit (c : Char) : Bool :=
  decide (48 ≤ c.toNat) && decide (c.toNat ≤ 57)

/-- Python `str.isdigit` (ASCII fragment): true iff the string is nonempty
and every character is a digit. -/
def pyStrIsDigit (s : List Char) : Bool :=
  !s.isEmpty && s.all isAsciiDigit

/-- Model: `WhatSPY.validate_phone_number` (lines 108-144): reject empty input,
strip the formatting characters, require an all-digit remainder of length
10 to 15. -/
def validate_phone_number (s : List Char) : Bool :=
  if s = [] then false
  else
    let cleaned := re_sub_strip s
    if !pyStrIsDigit cleaned then false
    else if cleaned.length < 10 || 15 < cleaned.length then false
    else true

/-- Stripping rule following the spec's words for comparison with the code:
remove exactly the five characters space, `-`, `(`, `)`, `+`. -/
def spec_strip (s : List Char) : List Char :=
  s.filter (fun c => !(decide (c = ' ') || decide (c = '-') || decide (c = '(') ||
    decide (c = ')') || decide (c = '+')))

/-- The amended stripping rule: remove exactly the characters of the
regex class `[\s\-\(\)\+]` (whitespace per `\s`, and `-`, `(`, `)`, `+`),
expressed as a filter. -/
def amended_strip (s : List Char) : List Char :=
  s.filter (fun c => !stripClass c)

/-!
## JSON values

The decoded JSON values the program passes around (`Dict`/`list`/scalars).
JSON numbers are modelled as integers (the program never constructs
floating-point values itself; they are outside this embedding).
-/
inductive JVal where
  | null : JVal
  | bool (b : Bool) : JVal
  | num (n : Int) : JVal
  | str (s : List Char) : JVal
  | arr (items : List JVal) : JVal
  | obj (fields : List (List Char × JVal)) : JVal

/-- The decimal digit character for `n % 10`. -/
def digitChar10 (n : Nat) : Char :=
  Char.ofNat (48 + n % 10)

/-- Decimal digits of `n`, most significant first, accumulated onto `acc`;
`fuel` bounds the recursion (any `fuel > n` is enough). -/
def natToDigitsAux : Nat → Nat → List Char → List Char
  | 0, _, acc => acc
  | fuel + 1, n, acc =>
    let acc' := digitChar10 (n % 10) :: acc
    if n < 10 then acc' else natToDigitsAux fuel (n / 10) acc'

/-- Python `str(n)` for a natural number. -/
def natRepr (n : Nat) : List Char :=
  natToDigitsAux (n + 1) n []

/-- Python `str(n)` for an integer. -/
def intRepr : Int → List Char
  | Int.ofNat n => natRepr n
  | Int.negSucc m => '-' :: natRepr (m + 1)

/-!
## Presenter: `print_colored_json` (lines 158-182)

Modelled as the stream of characters the function prints (colour escape
codes are presentation only and are dropped). `print(x)` emits `x`
followed by a newline; `print(x, end="")` emits `x` alone.
-/
/-- Model: `"    " * level`: the indentation prefix used by the presenter. -/
def pyIndent (level : Nat) : List Char :=
  List.replicate (4 * level) ' '

/-- Python `str` of a scalar JSON value (`None`, `True`, `False`, an
integer, or the text of a string). -/
def pyScalarStr : JVal → List Char
  | .null => "None".toList
  | .bool true => "True".toList
  | .bool false => "False".toList
  | .num n => intRepr n
  | .str s => s
  | .arr _ => []
  | .obj _ => []

mutual

/-- Model: `WhatSPY.print_colored_json` as the emitted character stream. -/
def print_colored_json : JVal → Nat → List Char
  | .obj kvs, level => printObjEntries kvs level
  | .arr xs, level => printArrEntries xs 0 level
  | v, _ => pyScalarStr v ++ ['\n']

/-- The `for key, value in data.items()` loop of the dict branch. -/
def printObjEntries : List (List Char × JVal) → Nat → List Char
  | [], _ => []
  | (k, v) :: rest, level =>
    pyIndent level ++ k ++ ':' :: ' ' ::
      (match v with
       | .obj _ => '\n' :: print_colored_json v (level + 1)
       | .arr _ => '\n' :: print_colored_json v (level + 1)
       | _ => print_colored_json v 0) ++
      printObjEntries rest level

/-- The `for i, item in enumerate(data)` loop of the list branch. -/
def printArrEntries : List JVal → Nat → Nat → List Char
  | [], _, _ => []
  | x :: rest, i, level =>
    pyIndent level ++ '[' :: natRepr i ++ ']' :: '\n' ::
      print_colored_json x (level + 1) ++ printArrEntries rest (i + 1) level

end

mutual

/-- Nesting depth of a JSON value: the number of nested recursive calls
`print_colored_json` makes below a value of this shape. -/
def jdepth : JVal → Nat
  | .obj kvs => 1 + jdepthFields kvs
  | .arr xs => 1 + jdepthItems xs
  | _ => 0

def jdepthFields : List (List Char × JVal) → Nat
  | [] => 0
  | (_, v) :: rest => max (jdepth v) (jdepthFields rest)

def jdepthItems : List JVal → Nat
  | [] => 0
  | v :: rest => max (jdepth v) (jdepthItems rest)

end

mutual

/-- Model: `print_colored_json` with an explicit recursion budget: each nested
Python call consumes one unit of `fuel` (one stack frame); `none` models
exhaustion of the budget. -/
def printCJFuel : Nat → JVal → Nat → Option (List Char)
  | 0, _, _ => none
  | fuel + 1, .obj kvs, level => printObjEntriesFuel fuel kvs level
  | fuel + 1, .arr xs, level => printArrEntriesFuel fuel xs 0 level
  | _ + 1, v, _ => some (pyScalarStr v ++ ['\n'])

def printObjEntriesFuel : Nat → List (List Char × JVal) → Nat → Option (List Char)
  | _, [], _ => some []
  | fuel, (k, v) :: rest, level =>
    (match v with
     | .obj _ => (printCJFuel fuel v (level + 1)).map (fun t => '\n' :: t)
     | .arr _ => (printCJFuel fuel v (level + 1)).map (fun t => '\n' :: t)
     | _ => printCJFuel fuel v 0).bind (fun body =>
      (printObjEntriesFuel fuel rest level).map (fun tail =>
        pyIndent level ++ k ++ ':' :: ' ' :: body ++ tail))

def printArrEntriesFuel : Nat → List JVal → Nat → Nat → Option (List Char)
  | _, [], _, _ => some []
  | fuel, x :: rest, i, level =>
    (printCJFuel fuel x (level + 1)).bind (fun body =>
      (printArrEntriesFuel fuel rest (i + 1) level).map (fun tail =>
        pyIndent level ++ '[' :: natRepr i ++ ']' :: '\n' :: body ++ tail))

end

/-!
## Persister: `json.dump(data, f, indent=2, ensure_ascii=False)`

The CPython encoder with a two-space indent: strings escape only `"`,
`\` and the control characters below 0x20 (short escapes for \b \t \n
\f \r, `\u00xx` otherwise); containers put each element on its own line,
separated by `","` + newline + indent, keys joined with `": "`.
-/
/-- Lowercase hexadecimal digit for `n < 16`. -/
def hexDigitChar (n : Nat) : Char :=
  if n < 10 then Char.ofNat (48 + n) else Char.ofNat (97 + (n - 10))

/-- The escape CPython's `py_encode_basestring` (ensure_ascii=False)
applies to one character. -/
def jsonEscapeChar (c : Char) : List Char :=
  if c = '"' then ['\\', '"']
  else if c = '\\' then ['\\', '\\']
  else if c.toNat = 8 then ['\\', 'b']
  else if c.toNat = 9 then ['\\', 't']
  else if c.toNat = 10 then ['\\', 'n']
  else if c.toNat = 12 then ['\\', 'f']
  else if c.toNat = 13 then ['\\', 'r']
  else if c.toNat < 32 then
    ['\\', 'u', '0', '0', hexDigitChar (c.toNat / 16), hexDigitChar (c.toNat % 16)]
  else [c]

/-- A JSON string literal: quote, escaped characters, quote. -/
def jsonEncodeString (s : List Char) : List Char :=
  '"' :: (s.map jsonEscapeChar).flatten ++ ['"']

/-- Model: `"  " * level`: the two-space indent prefix of `json.dump(indent=2)`. -/
def jsonIndent (level : Nat) : List Char :=
  List.replicate (2 * level) ' '

mutual

/-- One chunk of CPython's `_make_iterencode` output at an indent level. -/
def jsonEncode : JVal → Nat → List Char
  | .null, _ => "null".toList
  | .bool true, _ => "true".toList
  | .bool false, _ => "false".toList
  | .num n, _ => intRepr n
  | .str s, _ => jsonEncodeString s
  | .arr [], _ => "[]".toList
  | .arr (x :: xs), level =>
    '[' :: '\n' :: jsonIndent (level + 1) ++
      jsonEncodeItems (x :: xs) (level + 1) ++
      '\n' :: jsonIndent level ++ [']']
  | .obj [], _ => ['\x7b', '\x7d']
  | .obj (kv :: kvs), level =>
    '\x7b' :: '\n' :: jsonIndent (level + 1) ++
      jsonEncodeFields (kv :: kvs) (level + 1) ++
      '\n' :: jsonIndent level ++ ['\x7d']

/-- Array elements, separated by `','`, newline and indent. -/
def jsonEncodeItems : List JVal → Nat → List Char
  | [], _ => []
  | [x], level => jsonEncode x level
  | x :: y :: rest, level =>
    jsonEncode x level ++ ',' :: '\n' :: jsonIndent level ++
      jsonEncodeItems (y :: rest) level

/-- Object members `"key": value`, separated by `','`, newline and indent. -/
def jsonEncodeFields : List (List Char × JVal) → Nat → List Char
  | [], _ => []
  | [(k, v)], level => jsonEncodeString k ++ ':' :: ' ' :: jsonEncode v level
  | (k, v) :: kv :: rest, level =>
    jsonEncodeString k ++ ':' :: ' ' :: jsonEncode v level ++
      ',' :: '\n' :: jsonIndent level ++ jsonEncodeFields (kv :: rest) level

end

/-- The full text `json.dump(data, f, indent=2, ensure_ascii=False)`
writes for `data`. -/
def json_dump (data : JVal) : List Char :=
  jsonEncode data 0

/-!
## Persister: `save_result_to_file` (lines 184-202) and the query client
`query_whatsapp_number` (lines 204-291) / `_handle_http_error`
(lines 293-316)

The interaction with the operating system is explicit: a `PyDateTime` is
the value `datetime.now()` returned, `fsOk` says whether the file write
raises, and a `NetEvent` is what the single `requests.get` call does
(the four disjoint behaviours the `except` chain distinguishes). An
`HttpResponse` carries the status code, the result of `response.json()`
(`some v` when the body parses as JSON, `none` when parsing raises) and
the raw `response.text`.
-/
structure PyDateTime where
  year : Nat
  month : Nat
  day : Nat
  hour : Nat
  minute : Nat
  second : Nat

/-- Left-pad a digit string with zeros to width `w`. -/
def padZero (w : Nat) (s : List Char) : List Char :=
  List.replicate (w - s.length) '0' ++ s

/-- Model: `datetime.strftime("%Y%m%d_%H%M%S")`. -/
def strftime_ts (t : PyDateTime) : List Char :=
  padZero 4 (natRepr t.year) ++ padZero 2 (natRepr t.month) ++
    padZero 2 (natRepr t.day) ++ '_' ::
    (padZero 2 (natRepr t.hour) ++ padZero 2 (natRepr t.minute) ++
     padZero 2 (natRepr t.second))

/-- The output file name `whatsapp_data_{phone_number}_{timestamp}.json`. -/
def save_filename (phone_number : List Char) (t : PyDateTime) : List Char :=
  "whatsapp_data_".toList ++ phone_number ++ '_' :: strftime_ts t ++ ".json".toList

structure SaveRun where
  /-- Model: `(name, content)` of each file created. -/
  writes : List (List Char × List Char)
  /-- Whether the `except` branch reported a write error. -/
  errorReported : Bool

/-- Model: `WhatSPY.save_result_to_file`: write the JSON dump to the timestamped
file; an I/O failure is caught inside the function and only reported. -/
def save_result_to_file (fsOk : Bool) (data : JVal) (phone_number : List Char)
    (now : PyDateTime) : SaveRun :=
  if fsOk then ⟨[(save_filename phone_number now, json_dump data)], false⟩
  else ⟨[], true⟩

structure HttpResponse where
  status : Nat
  /-- Result of `response.json()`: the parsed body, or `none` when the
  body is not valid JSON and the call raises. -/
  jsonBody : Option JVal
  /-- Model: `response.text`. -/
  text : List Char

/-- What the single `requests.get` call does: the four disjoint behaviours
separated by the `except` chain of `query_whatsapp_number`. -/
inductive NetEvent where
  | timeout : NetEvent
  | connectionError : NetEvent
  | response (r : HttpResponse) : NetEvent
  | otherFailure (msg : List Char) : NetEvent

/-- The detail `_handle_http_error` displays for an HTTP error. -/
inductive ErrorDetail where
  | parsedBody (v : JVal) : ErrorDetail
  | rawText (t : List Char) : ErrorDetail

/-- The tagged outcome of one query: which code path of
`query_whatsapp_number` ran. -/
inductive QueryResult where
  | success (data : JVal) : QueryResult
  | httpError (status : Nat) (detail : Option ErrorDetail) : QueryResult
  | timeout : QueryResult
  | connectionError : QueryResult
  | invalidResponseBody : QueryResult
  | unknownError (msg : List Char) : QueryResult

/-- Model: `Response.raise_for_status` raises `HTTPError` exactly for status
codes 400-599. -/
def raise_for_status (status : Nat) : Bool :=
  decide (400 ≤ status) && decide (status < 600)

/-- Model: `bool(response)` for a requests `Response` is `response.ok`: false
exactly when `raise_for_status` would raise. -/
def response_truthy (r : HttpResponse) : Bool :=
  !raise_for_status r.status

/-- Model: `WhatSPY._handle_http_error` (lines 293-316), as the detail it shows:
behind `if response:` it tries `response.json()` and falls back to the
first 200 characters of `response.text` when that raises and the text is
nonempty. -/
def handle_http_error (resp : Option HttpResponse) : Option ErrorDetail :=
  match resp with
  | none => none
  | some r =>
    if response_truthy r then
      match r.jsonBody with
      | some v => some (ErrorDetail.parsedBody v)
      | none =>
        if r.text.isEmpty then none else some (ErrorDetail.rawText (r.text.take 200))
    else none

/-- The endpoint `https://{host}/number/{number}`. -/
def query_url (api_host number : List Char) : List Char :=
  "https://".toList ++ api_host ++ "/number/".toList ++ number

structure QueryRun where
  /-- Which code path the `try`/`except` chain took. -/
  result : QueryResult
  /-- The Python return value: the parsed dictionary or `None`. -/
  retval : Option JVal
  /-- URLs requested (one `requests.get` per call, never retried). -/
  requests : List (List Char)
  /-- Files written, via `save_result_to_file`. -/
  writes : List (List Char × List Char)

/-- Model: `WhatSPY.query_whatsapp_number` (lines 204-291): format the number,
issue one GET, then: `Timeout`/`ConnectionError` exceptions from the
request; `raise_for_status` sends statuses 400-599 to
`_handle_http_error`; a body that fails to parse raises
`JSONDecodeError`; otherwise show the data, optionally save it, and
return it; any other exception is the catch-all branch. Every branch
falls through to `return None` except the success path. -/
def query_whatsapp_number (api_host phone_number : List Char)
    (save_to_file : Bool) (fsOk : Bool) (now : PyDateTime) (net : NetEvent) :
    QueryRun :=
  let number := format_phone_number phone_number
  let url := query_url api_host number
  match net with
  | .timeout => ⟨.timeout, none, [url], []⟩
  | .connectionError => ⟨.connectionError, none, [url], []⟩
  | .otherFailure msg => ⟨.unknownError msg, none, [url], []⟩
  | .response r =>
    if raise_for_status r.status then
      ⟨.httpError r.status (handle_http_error (some r)), none, [url], []⟩
    else
      match r.jsonBody with
      | none => ⟨.invalidResponseBody, none, [url], []⟩
      | some data =>
        let saved := if save_to_file then save_result_to_file fsOk data number now
          else ⟨[], false⟩
        ⟨.success data, some data, [url], saved.writes⟩

/-- The JSON body `{"error": "not found"}` of the spec's HTTP-404 example. -/
def c6Body : JVal :=
  JVal.obj [("error".toList, JVal.str ("not found".toList))]

/-!
## Startup configuration and the menu loop

`load_environment` (lines 78-106) reads the two environment variables and
calls `sys.exit(1)` — modelled as `none` — when either is absent or empty
(both are falsy in `if not self.api_key or not self.api_host`). `run`
(lines 463-519) is a `while True` loop; one iteration is modelled below:
every operation an iteration performs catches its own errors, so an
iteration either continues the loop or — only for choice 0 — exits.
-/
/-- Model: `WhatSPY.load_environment`: `some (key, host)` to proceed, `none` for
the fatal `sys.exit(1)`. -/
def load_environment (key host : Option (List Char)) :
    Option (List Char × List Char) :=
  match key, host with
  | some k, some h => if k.isEmpty || h.isEmpty then none else some (k, h)
  | _, _ => none

inductive StepOutcome where
  | continueLoop : StepOutcome
  | exitProgram : StepOutcome

structure StepRun where
  outcome : StepOutcome
  /-- The queries the iteration performed. -/
  queries : List QueryRun

/-- One iteration of the menu loop of `WhatSPY.run`. `choice` is the
parsed menu selection (`-1` when `int(input())` raised `ValueError`,
already caught inside `show_menu`). Choices 1 and 2 validate and query
(choice 2 with saving); 3 shows the logs (`show_logs` catches its own
file errors); 4 and 5 are display only; 0 exits; anything else reports an
invalid option. -/
def run_step (api_host : List Char) (choice : Int) (phone : List Char)
    (net : NetEvent) (fsOk : Bool) (now : PyDateTime) : StepRun :=
  if choice = 1 then
    if validate_phone_number phone then
      ⟨.continueLoop, [query_whatsapp_number api_host phone false fsOk now net]⟩
    else ⟨.continueLoop, []⟩
  else if choice = 2 then
    if validate_phone_number phone then
      ⟨.continueLoop, [query_whatsapp_number api_host phone true fsOk now net]⟩
    else ⟨.continueLoop, []⟩
  else if choice = 3 then ⟨.continueLoop, []⟩
  else if choice = 4 then ⟨.continueLoop, []⟩
  else if choice = 5 then ⟨.continueLoop, []⟩
  else if choice = 0 then ⟨.exitProgram, []⟩
  else ⟨.continueLoop, []⟩

/-!
## `json.load`: the CPython pure-Python decoder

`py_scanstring`, `JSONObject`, `JSONArray` and `py_make_scanner` over
`List Char`, with an explicit recursion budget for the nesting.
Floating-point literals (a fraction or exponent after the integer part),
`NaN`/`Infinity` and lone-surrogate `\uXXXX` results are outside the
embedding: the model answers `none` where CPython would build a float,
and maps a lone surrogate through `Char.ofNat`. `json.load` builds each
object with `dict(pairs)`: insertion order of first occurrence, the last
value for a repeated key.
-/
/-- The whitespace the decoder's `WHITESPACE` regex skips. -/
def jsonWsChar (c : Char) : Bool :=
  decide (c = ' ') || decide (c = '\t') || decide (c = '\n') || decide (c = '\r')

/-- Advance over decoder whitespace. -/
def skipWs : List Char → List Char
  | [] => []
  | c :: cs => if jsonWsChar c then skipWs cs else c :: cs

/-- Value of one hexadecimal digit. -/
def hexVal (c : Char) : Option Nat :=
  if 48 ≤ c.toNat ∧ c.toNat ≤ 57 then some (c.toNat - 48)
  else if 97 ≤ c.toNat ∧ c.toNat ≤ 102 then some (c.toNat - 87)
  else if 65 ≤ c.toNat ∧ c.toNat ≤ 70 then some (c.toNat - 55)
  else none

/-- Model: `_decode_uXXXX`: four hexadecimal digits. -/
def parseHex4 : List Char → Option (Nat × List Char)
  | a :: b :: c :: d :: rest =>
    match hexVal a, hexVal b, hexVal c, hexVal d with
    | some va, some vb, some vc, some vd =>
      some ((((va * 16 + vb) * 16 + vc) * 16 + vd, rest))
    | _, _, _, _ => none
  | _ => none

/-- The `BACKSLASH` table of two-character escapes. -/
def jsonUnescape (e : Char) : Option Char :=
  if e = '"' then some '"'
  else if e = '\\' then some '\\'
  else if e = '/' then some '/'
  else if e = 'b' then some (Char.ofNat 8)
  else if e = 'f' then some (Char.ofNat 12)
  else if e = 'n' then some '\n'
  else if e = 'r' then some '\r'
  else if e = 't' then some '\t'
  else none

/-- Model: `py_scanstring` (strict) after the opening quote: content up to the
closing quote, two-character escapes, `\uXXXX` with surrogate-pair
combination, and a hard error on a raw control character. `fuel` bounds
the recursion; one unit is consumed per produced character, so any
`fuel` beyond the input length is enough. -/
def scanStringBody : Nat → List Char → Option (List Char × List Char)
  | 0, _ => none
  | _ + 1, [] => none
  | fuel + 1, c :: cs =>
    if c = '"' then some ([], cs)
    else if c = '\\' then
      match cs with
      | [] => none
      | e :: cs1 =>
        if e = 'u' then
          match parseHex4 cs1 with
          | none => none
          | some (n, cs2) =>
            if 0xd800 ≤ n ∧ n ≤ 0xdbff then
              match cs2 with
              | '\\' :: 'u' :: cs3 =>
                match parseHex4 cs3 with
                | none => none
                | some (n2, cs4) =>
                  if 0xdc00 ≤ n2 ∧ n2 ≤ 0xdfff then
                    (scanStringBody fuel cs4).map (fun p =>
                      (Char.ofNat (0x10000 + (n - 0xd800) * 0x400 + (n2 - 0xdc00)) ::
                        p.1, p.2))
                  else
                    (scanStringBody fuel cs2).map (fun p => (Char.ofNat n :: p.1, p.2))
              | _ =>
                (scanStringBody fuel cs2).map (fun p => (Char.ofNat n :: p.1, p.2))
            else
              (scanStringBody fuel cs2).map (fun p => (Char.ofNat n :: p.1, p.2))
        else
          match jsonUnescape e with
          | none => none
          | some ch => (scanStringBody fuel cs1).map (fun p => (ch :: p.1, p.2))
    else if c.toNat < 32 then none
    else (scanStringBody fuel cs).map (fun p => (c :: p.1, p.2))

/-- Greedy run of decimal digits. -/
def takeDigits : List Char → List Char × List Char
  | [] => ([], [])
  | c :: cs =>
    if isAsciiDigit c then
      let p := takeDigits cs
      (c :: p.1, p.2)
    else ([], c :: cs)

/-- Numeric value of a digit string. -/
def digitsVal (ds : List Char) : Nat :=
  ds.foldl (fun a c => a * 10 + (c.toNat - 48)) 0

/-- The integer part `(0|[1-9]\d*)` of `NUMBER_RE`. -/
def scanIntPart : List Char → Option (Nat × List Char)
  | [] => none
  | c :: cs =>
    if c = '0' then some (0, cs)
    else if isAsciiDigit c then
      let p := takeDigits cs
      some (digitsVal (c :: p.1), p.2)
    else none

/-- Does `(\.\d+)?([eE][-+]?\d+)?` match a nonempty fraction or exponent
here? If so the literal is a float, outside the embedding. -/
def floatTailStarts : List Char → Bool
  | [] => false
  | c :: t =>
    if c = '.' then
      match t with
      | d :: _ => isAsciiDigit d
      | [] => false
    else if c = 'e' ∨ c = 'E' then
      match t with
      | '+' :: d :: _ => isAsciiDigit d
      | '-' :: d :: _ => isAsciiDigit d
      | d :: _ => isAsciiDigit d
      | [] => false
    else false

/-- A match of `NUMBER_RE` yielding an `int` (`none` also stands for the
float case, which the embedding does not model). -/
def scanNumber (s : List Char) : Option (Int × List Char) :=
  match s with
  | [] => none
  | c :: cs =>
    if c = '-' then
      match scanIntPart cs with
      | none => none
      | some (n, r) => if floatTailStarts r then none else some (-(n : Int), r)
    else
      match scanIntPart (c :: cs) with
      | none => none
      | some (n, r) => if floatTailStarts r then none else some ((n : Int), r)

/-- Model: `dict` insertion: a repeated key keeps its position and takes the new
value. -/
def dictInsert (k : List Char) (v : JVal) :
    List (List Char × JVal) → List (List Char × JVal)
  | [] => [(k, v)]
  | (k1, v1) :: rest =>
    if k1 = k then (k1, v) :: rest else (k1, v1) :: dictInsert k v rest

/-- Model: `dict(pairs)`. -/
def dictOfPairs (pairs : List (List Char × JVal)) : List (List Char × JVal) :=
  pairs.foldl (fun acc kv => dictInsert kv.1 kv.2 acc) []

mutual

/-- Model: `scan_once`: dispatch on the first character — `"` for a string, the
braces and brackets for the containers, the three keyword literals, and
otherwise `NUMBER_RE`. `fuel` bounds the recursion into the two container
loops. -/
def scanValue : Nat → List Char → Option (JVal × List Char)
  | 0, _ => none
  | fuel + 1, s =>
    match s with
    | [] => none
    | c :: rest =>
      if c = '"' then
        (scanStringBody (rest.length + 1) rest).map (fun p => (JVal.str p.1, p.2))
      else if c = '\x7b' then
        match skipWs rest with
        | [] => none
        | d :: r =>
          if d = '\x7d' then some (JVal.obj [], r)
          else if d = '"' then
            (scanMembers fuel (d :: r)).map (fun p =>
              (JVal.obj (dictOfPairs p.1), p.2))
          else none
      else if c = '[' then
        match skipWs rest with
        | [] => none
        | d :: r =>
          if d = ']' then some (JVal.arr [], r)
          else (scanItems fuel (d :: r)).map (fun p => (JVal.arr p.1, p.2))
      else if c = 'n' then
        match rest with
        | 'u' :: 'l' :: 'l' :: r => some (JVal.null, r)
        | _ => none
      else if c = 't' then
        match rest with
        | 'r' :: 'u' :: 'e' :: r => some (JVal.bool true, r)
        | _ => none
      else if c = 'f' then
        match rest with
        | 'a' :: 'l' :: 's' :: 'e' :: r => some (JVal.bool false, r)
        | _ => none
      else (scanNumber (c :: rest)).map (fun p => (JVal.num p.1, p.2))

/-- The member loop of `JSONObject`, positioned at the `"` of a key;
consumes the closing brace. -/
def scanMembers : Nat → List Char → Option (List (List Char × JVal) × List Char)
  | 0, _ => none
  | fuel + 1, s =>
    match s with
    | '"' :: r =>
      (scanStringBody (r.length + 1) r).bind (fun pk =>
        match skipWs pk.2 with
        | ':' :: r2 =>
          (scanValue fuel (skipWs r2)).bind (fun pv =>
            match skipWs pv.2 with
            | '\x7d' :: r4 => some ([(pk.1, pv.1)], r4)
            | ',' :: r4 =>
              (match skipWs r4 with
               | '"' :: r5 =>
                 (scanMembers fuel ('"' :: r5)).map (fun pm =>
                   ((pk.1, pv.1) :: pm.1, pm.2))
               | _ => none)
            | _ => none)
        | _ => none)
    | _ => none

/-- The element loop of `JSONArray`, positioned at the first element;
consumes the closing bracket. -/
def scanItems : Nat → List Char → Option (List JVal × List Char)
  | 0, _ => none
  | fuel + 1, s =>
    (scanValue fuel s).bind (fun pv =>
      match skipWs pv.2 with
      | ']' :: r2 => some ([pv.1], r2)
      | ',' :: r2 =>
        (scanItems fuel (skipWs r2)).map (fun pi => (pv.1 :: pi.1, pi.2))
      | _ => none)

end

/-- Model: `json.load` on the whole text: skip leading whitespace, scan one
value, skip trailing whitespace, and require the end of the input. The
budget `length + 1` always suffices: the loops consume at least one
character per unit. -/
def json_loads (s : List Char) : Option JVal :=
  match scanValue (s.length + 1) (skipWs s) with
  | none => none
  | some (v, rest) => if skipWs rest = [] then some v else none

/-- The character after a decimal literal must not extend it: no digit. -/
def notDigitStart : List Char → Prop
  | [] => True
  | c :: _ => isAsciiDigit c = false

/-!
## Round trip, stage 3: objects as `dict`, recursion budgets, head shapes
-/
/-- No key occurs twice. -/
def noDupKeyList : List (List Char) → Bool
  | [] => true
  | k :: ks => !(decide (k ∈ ks)) && noDupKeyList ks

mutual

/-- Every object in the value has pairwise distinct keys — automatically
true of a value that came from Python dictionaries. -/
def jNodupKeys : JVal → Bool
  | .arr xs => jNodupKeysItems xs
  | .obj kvs => noDupKeyList (kvs.map Prod.fst) && jNodupKeysMembers kvs
  | _ => true

def jNodupKeysItems : List JVal → Bool
  | [] => true
  | x :: rest => jNodupKeys x && jNodupKeysItems rest

def jNodupKeysMembers : List (List Char × JVal) → Bool
  | [] => true
  | kv :: rest => jNodupKeys kv.2 && jNodupKeysMembers rest

end

mutual

/-- A sufficient scanner budget for a value: one unit per `scanValue`,
`scanItems` or `scanMembers` activation along any path. -/
def jfuel : JVal → Nat
  | .arr xs => 1 + jfuelItems xs
  | .obj kvs => 1 + jfuelMembers kvs
  | _ => 1

def jfuelItems : List JVal → Nat
  | [] => 1
  | x :: rest => 1 + max (jfuel x) (jfuelItems rest)

def jfuelMembers : List (List Char × JVal) → Nat
  | [] => 1
  | kv :: rest => 1 + max (jfuel kv.2) (jfuelMembers rest)

end

/-- The suffix after an encoded number may not extend the literal: no
digit, no fraction, no exponent. -/
def sepSafe : List Char → Bool
  | [] => true
  | c :: _ =>
    !isAsciiDigit c && !(decide (c = '.')) && !(decide (c = 'e')) &&
      !(decide (c = 'E'))

/-- A sample result value: nested object, array, negative number, escaped
string. -/
def c5Sample : JVal :=
  JVal.obj [("status".toList, JVal.bool true),
            ("n".toList, JVal.num (-42)),
            ("msg".toList, JVal.str ("hola\n\tñ \"x\"\\".toList)),
            ("data".toList, JVal.arr [JVal.null, JVal.num 0, JVal.obj [],
              JVal.arr []])]

theorem re_sub_strip_eq_filter (s : List Char) :
    re_sub_strip s = s.filter (fun c => !stripClass c) := by
  induction s with
  | nil => rfl
  | cons c cs ih =>
    by_cases h : stripClass c = true
    · simp [re_sub_strip, h, List.filter, ih]
    · simp only [Bool.not_eq_true] at h
      simp [re_sub_strip, h, List.filter, ih]

/-- Claim C7: `normalize ∘ normalize = normalize`: stripping a second time
changes nothing, because the output of the strip contains no character of
the stripped class. -/
theorem C7_normalize_idempotent (s : List Char) :
    format_phone_number (format_phone_number s) = format_phone_number s := by
  simp only [format_phone_number, re_sub_strip_eq_filter]
  rw [List.filter_filter]
  simp

/-- Claim C2, counterexample: `format_phone_number` also deletes a tab
character, which is not among the five characters space, `-`, `(`, `)`, `+`
that the claim allows it to remove: on `"1\t2"` the code yields `"12"`,
while removing only the five listed characters would leave `"1\t2"`
unchanged. -/
theorem C2_counterexample :
    format_phone_number ("1\t2".toList) = "12".toList ∧
    format_phone_number ("1\t2".toList) ≠ spec_strip ("1\t2".toList) := by
  decide

theorem validate_true_iff (s : List Char) :
    validate_phone_number s = true ↔
      (pyStrIsDigit (re_sub_strip s) = true ∧
       10 ≤ (re_sub_strip s).length ∧ (re_sub_strip s).length ≤ 15) := by
  by_cases he : s = []
  · subst he
    simp [validate_phone_number, re_sub_strip, pyStrIsDigit]
  · cases hd : pyStrIsDigit (re_sub_strip s) with
    | false => simp [validate_phone_number, he, hd]
    | true =>
      simp only [validate_phone_number, he, if_false, hd, Bool.not_true,
        Bool.false_eq_true, if_false, true_and]
      by_cases hl : ((re_sub_strip s).length < 10 || 15 < (re_sub_strip s).length) = true
      · simp only [hl, if_true]
        simp only [Bool.or_eq_true, decide_eq_true_eq] at hl
        constructor
        · intro h
          exact absurd h (by simp)
        · intro h
          omega
      · simp only [hl, if_false]
        simp only [Bool.or_eq_true, decide_eq_true_eq, not_or, not_lt] at hl
        constructor
        · intro _
          omega
        · intro _
          rfl

/-- Claim C2, amended: `normalize` removes exactly the characters of the
class "whitespace (`\s`), `-`, `(`, `)`, `+`" and no others, preserving
the order of the remaining characters (it is the filter keeping exactly
the characters outside the class); `validate` applies the identical
stripping rule before its digit and length checks; and
`normalize("+52 55 1234 5678") = "525512345678"`. -/
theorem C2_normalize_strips_class :
    (∀ s, format_phone_number s = amended_strip s) ∧
    (∀ s, validate_phone_number s = true ↔
      (pyStrIsDigit (format_phone_number s) = true ∧
       10 ≤ (format_phone_number s).length ∧ (format_phone_number s).length ≤ 15)) ∧
    format_phone_number ("+52 55 1234 5678".toList) = "525512345678".toList := by
  exact ⟨fun s => re_sub_strip_eq_filter s, fun s => validate_true_iff s, by decide⟩

/-- Claim C1, counterexample: On the input `"123\t4567890"` the claim's
condition holds (after removing only space, `-`, `(`, `)`, `+` the tab
remains, so the string is not all-digit, and the claim requires
`validate` to return `false`), yet the code returns `true`: the regex
also strips the tab, leaving the ten digits `1234567890`. -/
theorem C1_counterexample :
    validate_phone_number ("123\t4567890".toList) = true ∧
    pyStrIsDigit (spec_strip ("123\t4567890".toList)) = false := by
  decide

/-- Claim C1, amended: `validate` returns `false` exactly when the input is
empty, or the string obtained after removing the characters of the class
"whitespace (`\s`), `-`, `(`, `)`, `+`" is not all-digit, or that string's
length is below 10 or above 15; otherwise it returns `true` (it is a pure
function of its input). The spec's two examples hold as stated. -/
theorem C1_validate_false_iff :
    (∀ s, validate_phone_number s = false ↔
      (s = [] ∨ pyStrIsDigit (amended_strip s) = false ∨
       (amended_strip s).length < 10 ∨ 15 < (amended_strip s).length)) ∧
    validate_phone_number ("123".toList) = false ∧
    validate_phone_number ("12345678901234567".toList) = false := by
  refine ⟨fun s => ?_, by decide, by decide⟩
  have hst : re_sub_strip s = amended_strip s := re_sub_strip_eq_filter s
  have hiff := validate_true_iff s
  rw [hst] at hiff
  rw [← Bool.not_eq_true, hiff]
  constructor
  · intro h
    by_cases hd : pyStrIsDigit (amended_strip s) = true
    · right; right
      by_contra hc
      push_neg at hc
      exact h ⟨hd, by omega, by omega⟩
    · exact Or.inr (Or.inl (by simpa using hd))
  · rintro (he | hd | hl | hl) ⟨h1, h2, h3⟩
    · subst he
      simp [amended_strip, pyStrIsDigit] at h1
    · rw [hd] at h1
      exact absurd h1 (by simp)
    · omega
    · omega

theorem printCJFuel_spec (fuel : Nat) :
    ∀ v level, jdepth v < fuel →
      printCJFuel fuel v level = some (print_colored_json v level) := by
  induction fuel with
  | zero =>
    intro v level h
    omega
  | succ fuel ih =>
    have hfields : ∀ kvs lvl, jdepthFields kvs < fuel →
        printObjEntriesFuel fuel kvs lvl = some (printObjEntries kvs lvl) := by
      intro kvs
      induction kvs with
      | nil =>
        intro lvl _
        cases fuel <;> rfl
      | cons kv rest ihr =>
        intro lvl hb
        obtain ⟨k, v⟩ := kv
        simp only [jdepthFields] at hb
        have hv : jdepth v < fuel := lt_of_le_of_lt (le_max_left _ _) hb
        have hr : jdepthFields rest < fuel := lt_of_le_of_lt (le_max_right _ _) hb
        have hv' := ih v (lvl + 1) hv
        have hv0 := ih v 0 hv
        have hr' := ihr lvl hr
        cases v <;>
          simp [printObjEntriesFuel, printObjEntries, hv', hv0, hr']
    have hitems : ∀ xs i lvl, jdepthItems xs < fuel →
        printArrEntriesFuel fuel xs i lvl = some (printArrEntries xs i lvl) := by
      intro xs
      induction xs with
      | nil =>
        intro i lvl _
        cases fuel <;> rfl
      | cons x rest ihr =>
        intro i lvl hb
        simp only [jdepthItems] at hb
        have hv : jdepth x < fuel := lt_of_le_of_lt (le_max_left _ _) hb
        have hr : jdepthItems rest < fuel := lt_of_le_of_lt (le_max_right _ _) hb
        have hv' := ih x (lvl + 1) hv
        have hr' := ihr (i + 1) lvl hr
        simp [printArrEntriesFuel, printArrEntries, hv', hr']
    intro v level h
    cases v with
    | obj kvs =>
      simp only [jdepth] at h
      have := hfields kvs level (by omega)
      simp [printCJFuel, print_colored_json, this]
    | arr xs =>
      simp only [jdepth] at h
      have := hitems xs 0 level (by omega)
      simp [printCJFuel, print_colored_json, this]
    | null => rfl
    | bool b => rfl
    | num n => rfl
    | str s => rfl

/-- Claim C9: The presenter's recursive rendering terminates on every finite
JSON value: a recursion budget of `jdepth v + 1` stack frames (one more
than the value's nesting depth) always suffices, and the budgeted run
produces the output of the structurally recursive rendering — no guard
beyond the finiteness of the input is needed. -/
theorem C9_printer_terminates (v : JVal) (level : Nat) :
    printCJFuel (jdepth v + 1) v level = some (print_colored_json v level) :=
  printCJFuel_spec (jdepth v + 1) v level (by omega)

/-- Claim C3, counterexample: The status 304 is not a 2xx status, so the
claim requires the outcome `HttpError`; but `raise_for_status` raises
only for statuses 400-599, so the code goes on to parse the body and —
the body of a 304 not being JSON — produces `InvalidResponseBody`. -/
theorem C3_counterexample :
    (query_whatsapp_number ("h".toList) ("5215512345678".toList) false true
        ⟨2024, 1, 1, 0, 0, 0⟩
        (NetEvent.response ⟨304, none, "Not Modified".toList⟩)).result =
      QueryResult.invalidResponseBody := rfl

/-- Claim C3, amended: Every single query produces exactly one of the six
disjoint result kinds, classified in the priority order of the `except`
chain: a network-level timeout gives `Timeout`, a connection failure
gives `ConnectionError`, an HTTP status in 400-599 (the statuses
`raise_for_status` raises for — not every non-2xx status) gives
`HttpError`, a response outside 400-599 whose body fails to parse as
JSON gives `InvalidResponseBody`, such a response with a valid JSON body
gives `Success`, and any other failure gives `UnknownError`; exactly one
`requests.get` is issued — the query is never retried. -/
theorem C3_classification (api_host phone : List Char) (save fsOk : Bool)
    (now : PyDateTime) (net : NetEvent) :
    let run := query_whatsapp_number api_host phone save fsOk now net
    run.requests.length = 1 ∧
    (run.result = QueryResult.timeout ↔ net = NetEvent.timeout) ∧
    (run.result = QueryResult.connectionError ↔ net = NetEvent.connectionError) ∧
    ((∃ s d, run.result = QueryResult.httpError s d) ↔
      (∃ r, net = NetEvent.response r ∧ raise_for_status r.status = true)) ∧
    (run.result = QueryResult.invalidResponseBody ↔
      (∃ r, net = NetEvent.response r ∧ raise_for_status r.status = false ∧
        r.jsonBody = none)) ∧
    ((∃ v, run.result = QueryResult.success v) ↔
      (∃ r v, net = NetEvent.response r ∧ raise_for_status r.status = false ∧
        r.jsonBody = some v)) ∧
    ((∃ m, run.result = QueryResult.unknownError m) ↔
      (∃ m, net = NetEvent.otherFailure m)) := by
  intro run
  cases net with
  | timeout => simp [run, query_whatsapp_number]
  | connectionError => simp [run, query_whatsapp_number]
  | otherFailure msg => simp [run, query_whatsapp_number]
  | response r =>
    cases hs : raise_for_status r.status with
    | true => simp [run, query_whatsapp_number, hs]
    | false =>
      cases hb : r.jsonBody with
      | none => simp [run, query_whatsapp_number, hs, hb]
      | some data => simp [run, query_whatsapp_number, hs, hb]

/-- Claim C4: When the query hits the timeout the outcome is `Timeout` and
no file is written, even though saving was requested; moreover a file is
ever written only when the outcome is `Success` (the write happens on the
success path, before the data is returned). -/
theorem C4_timeout_writes_nothing (api_host phone : List Char) (fsOk : Bool)
    (now : PyDateTime) :
    ((query_whatsapp_number api_host phone true fsOk now NetEvent.timeout).result =
        QueryResult.timeout ∧
     (query_whatsapp_number api_host phone true fsOk now NetEvent.timeout).writes = []) ∧
    (∀ save net,
      (query_whatsapp_number api_host phone save fsOk now net).writes ≠ [] →
        ∃ v, (query_whatsapp_number api_host phone save fsOk now net).result =
          QueryResult.success v) := by
  refine ⟨⟨rfl, rfl⟩, ?_⟩
  intro save net hw
  cases net with
  | timeout => exact absurd rfl hw
  | connectionError => exact absurd rfl hw
  | otherFailure msg => exact absurd rfl hw
  | response r =>
    cases hs : raise_for_status r.status with
    | true =>
      simp [query_whatsapp_number, hs] at hw
    | false =>
      cases hb : r.jsonBody with
      | none => simp [query_whatsapp_number, hs, hb] at hw
      | some data =>
        exact ⟨data, by simp [query_whatsapp_number, hs, hb]⟩

theorem C4_timeout_writes_nothing_witness :
    ∃ v, (query_whatsapp_number ("h".toList) ("5215512345678".toList) true true
        ⟨2024, 1, 1, 0, 0, 0⟩
        (NetEvent.response ⟨200, some JVal.null, "null".toList⟩)).result =
      QueryResult.success v :=
  (C4_timeout_writes_nothing ("h".toList) ("5215512345678".toList) true
      ⟨2024, 1, 1, 0, 0, 0⟩).2 true
    (NetEvent.response ⟨200, some JVal.null, "null".toList⟩)
    (by decide)

/-- Claim C6: An HTTP 404 whose body parses as the JSON value
`{"error": "not found"}` is meant to yield
`HttpError{status:404, body:{"error":"not found"}}`; the code produces
`HttpError` with status 404 but *without* the body: inside
`_handle_http_error` the guard `if response:` calls `Response.__bool__`,
which is `response.ok` — false for every status 400-599 — so the branch
that would show the parsed body (or the first 200 characters of text) is
unreachable whenever an `HTTPError` was raised. -/
theorem C6_http_error_detail_lost :
    (query_whatsapp_number ("h".toList) ("5215512345678".toList) false true
        ⟨2024, 1, 1, 0, 0, 0⟩
        (NetEvent.response
          ⟨404, some c6Body, "\x7b\"error\": \"not found\"\x7d".toList⟩)).result =
      QueryResult.httpError 404 none := rfl

/-- Claim C10: `query_whatsapp_number` returns the parsed dictionary exactly
in the success case and `None` in every failure case, and the returned
value does not depend on whether the file write succeeds (a save failure
is caught inside `save_result_to_file`). The `except` chain ends in a
catch-all `except Exception`, so the function is total in the embedding:
no exception escapes. -/
theorem C10_return_value (api_host phone : List Char) (save fsOk : Bool)
    (now : PyDateTime) (net : NetEvent) :
    ((query_whatsapp_number api_host phone save fsOk now net).retval =
      (query_whatsapp_number api_host phone save true now net).retval) ∧
    (∀ d, (query_whatsapp_number api_host phone save fsOk now net).retval = some d ↔
      (query_whatsapp_number api_host phone save fsOk now net).result =
        QueryResult.success d) := by
  cases net with
  | timeout => exact ⟨rfl, by simp [query_whatsapp_number]⟩
  | connectionError => exact ⟨rfl, by simp [query_whatsapp_number]⟩
  | otherFailure msg => exact ⟨rfl, by simp [query_whatsapp_number]⟩
  | response r =>
    cases hs : raise_for_status r.status with
    | true =>
      constructor
      · simp [query_whatsapp_number, hs]
      · intro d
        simp [query_whatsapp_number, hs]
    | false =>
      cases hb : r.jsonBody with
      | none =>
        constructor
        · simp [query_whatsapp_number, hs, hb]
        · intro d
          simp [query_whatsapp_number, hs, hb]
      | some data =>
        constructor
        · simp [query_whatsapp_number, hs, hb]
        · intro d
          simp [query_whatsapp_number, hs, hb]

/-- Claim C8: Missing configuration is detected at startup and is the only
terminating condition: `load_environment` exits exactly when the key or
the host is absent or empty; and a menu-loop iteration exits exactly for
the explicit choice 0 — for every other choice, every network behaviour,
every file-system behaviour and every phone input (validation failure
included) the loop continues, because each operation catches its own
errors. -/
theorem C8_errors_confined :
    (∀ key host, load_environment key host = none ↔
      (key = none ∨ key = some [] ∨ host = none ∨ host = some [])) ∧
    (∀ api_host choice phone net fsOk now,
      (run_step api_host choice phone net fsOk now).outcome =
          StepOutcome.exitProgram ↔ choice = 0) := by
  constructor
  · intro key host
    cases key with
    | none => simp [load_environment]
    | some k =>
      cases host with
      | none => simp [load_environment]
      | some h =>
        by_cases hk : k = []
        · simp [load_environment, hk]
        · by_cases hh : h = []
          · simp [load_environment, hk, hh]
          · simp [load_environment, hk, hh, List.isEmpty_iff]
  · intro api_host choice phone net fsOk now
    unfold run_step
    split_ifs <;> simp_all

/-!
## Round trip, stage 1: decimal integer literals
-/
theorem Char.toNat_injective {c d : Char} (h : c.toNat = d.toNat) : c = d := by
  have := congrArg Char.ofNat h
  simpa using this

theorem digitChar10_toNat (k : Nat) : (digitChar10 k).toNat = 48 + k % 10 := by
  have h : k % 10 < 10 := Nat.mod_lt _ (by omega)
  unfold digitChar10
  generalize k % 10 = m at *
  interval_cases m <;> decide

theorem isAsciiDigit_digitChar10 (k : Nat) :
    isAsciiDigit (digitChar10 k) = true := by
  simp only [isAsciiDigit, digitChar10_toNat, Bool.and_eq_true, decide_eq_true_eq]
  omega

theorem natToDigitsAux_acc (n : Nat) : ∀ fuel acc, n < fuel →
    natToDigitsAux fuel n acc = natToDigitsAux fuel n [] ++ acc := by
  induction n using Nat.strong_induction_on with
  | _ n ih =>
    intro fuel acc hf
    cases fuel with
    | zero => omega
    | succ f =>
      by_cases h : n < 10
      · simp [natToDigitsAux, h]
      · have hd : n / 10 < n := Nat.div_lt_self (by omega) (by omega)
        have hdf : n / 10 < f := by omega
        simp only [natToDigitsAux, h, if_false]
        rw [ih (n / 10) hd f (digitChar10 (n % 10) :: acc) hdf,
          ih (n / 10) hd f [digitChar10 (n % 10)] hdf]
        simp

theorem natToDigitsAux_fuel (n : Nat) : ∀ f1 f2 acc, n < f1 → n < f2 →
    natToDigitsAux f1 n acc = natToDigitsAux f2 n acc := by
  induction n using Nat.strong_induction_on with
  | _ n ih =>
    intro f1 f2 acc h1 h2
    cases f1 with
    | zero => omega
    | succ g1 =>
      cases f2 with
      | zero => omega
      | succ g2 =>
        by_cases h : n < 10
        · simp [natToDigitsAux, h]
        · have hd : n / 10 < n := Nat.div_lt_self (by omega) (by omega)
          simp only [natToDigitsAux, h, if_false]
          exact ih (n / 10) hd g1 g2 _ (by omega) (by omega)

theorem natRepr_lt10 (n : Nat) (h : n < 10) : natRepr n = [digitChar10 n] := by
  unfold natRepr
  simp [natToDigitsAux, h, digitChar10, Nat.mod_mod_of_dvd n dvd_rfl,
    Nat.mod_eq_of_lt h]

theorem natRepr_ge10 (n : Nat) (h : 10 ≤ n) :
    natRepr n = natRepr (n / 10) ++ [digitChar10 n] := by
  have hd : n / 10 < n := Nat.div_lt_self (by omega) (by omega)
  have hmod : digitChar10 (n % 10) = digitChar10 n := by
    unfold digitChar10
    rw [Nat.mod_mod_of_dvd n dvd_rfl]
  conv =>
    lhs
    unfold natRepr
  simp only [natToDigitsAux, Nat.not_lt_of_lt (by omega : 9 < n), if_neg (by omega : ¬ n < 10)]
  rw [natToDigitsAux_acc (n / 10) n _ (by omega),
    natToDigitsAux_fuel (n / 10) n (n / 10 + 1) [] (by omega) (by omega), hmod]
  rfl

theorem natRepr_ne_nil (n : Nat) : natRepr n ≠ [] := by
  by_cases h : n < 10
  · rw [natRepr_lt10 n h]
    simp
  · rw [natRepr_ge10 n (by omega)]
    simp

theorem natRepr_all_digits (n : Nat) :
    ∀ c ∈ natRepr n, isAsciiDigit c = true := by
  induction n using Nat.strong_induction_on with
  | _ n ih =>
    by_cases h : n < 10
    · rw [natRepr_lt10 n h]
      intro c hc
      simp at hc
      subst hc
      exact isAsciiDigit_digitChar10 n
    · rw [natRepr_ge10 n (by omega)]
      intro c hc
      rcases List.mem_append.mp hc with hc | hc
      · exact ih (n / 10) (Nat.div_lt_self (by omega) (by omega)) c hc
      · simp at hc
        subst hc
        exact isAsciiDigit_digitChar10 n

theorem digitsVal_append_singleton (ds : List Char) (c : Char) :
    digitsVal (ds ++ [c]) = 10 * digitsVal ds + (c.toNat - 48) := by
  simp only [digitsVal, List.foldl_append, List.foldl_cons, List.foldl_nil]
  omega

theorem digitsVal_natRepr (n : Nat) : digitsVal (natRepr n) = n := by
  induction n using Nat.strong_induction_on with
  | _ n ih =>
    by_cases h : n < 10
    · rw [natRepr_lt10 n h]
      simp only [digitsVal, List.foldl_cons, List.foldl_nil, digitChar10_toNat]
      omega
    · rw [natRepr_ge10 n (by omega), digitsVal_append_singleton,
        ih (n / 10) (Nat.div_lt_self (by omega) (by omega)), digitChar10_toNat]
      omega

theorem natRepr_head_zero (n : Nat) (h : (natRepr n).head? = some '0') :
    n = 0 := by
  induction n using Nat.strong_induction_on with
  | _ n ih =>
    by_cases hn : n < 10
    · rw [natRepr_lt10 n hn] at h
      simp at h
      have h2 := congrArg Char.toNat h
      rw [digitChar10_toNat] at h2
      have h48 : ('0').toNat = 48 := rfl
      rw [h48] at h2
      omega
    · rw [natRepr_ge10 n (by omega)] at h
      rcases hq : natRepr (n / 10) with _ | ⟨c, cs⟩
      · exact absurd hq (natRepr_ne_nil _)
      · rw [hq] at h
        simp at h
        have h0 : (natRepr (n / 10)).head? = some '0' := by
          rw [hq, h]
          rfl
        have := ih (n / 10) (Nat.div_lt_self (by omega) (by omega)) h0
        omega

theorem takeDigits_append (ds rest : List Char)
    (hd : ∀ c ∈ ds, isAsciiDigit c = true) (hr : notDigitStart rest) :
    takeDigits (ds ++ rest) = (ds, rest) := by
  induction ds with
  | nil =>
    cases rest with
    | nil => rfl
    | cons c cs =>
      simp only [notDigitStart] at hr
      simp [takeDigits, hr]
  | cons d ds ih =>
    have hdd := hd d (by simp)
    simp [takeDigits, hdd, ih (fun c hc => hd c (List.mem_cons_of_mem _ hc))]

theorem scanIntPart_natRepr (n : Nat) (rest : List Char) (hr : notDigitStart rest) :
    scanIntPart (natRepr n ++ rest) = some (n, rest) := by
  by_cases hn0 : n = 0
  · subst hn0
    have h0 : natRepr 0 = ['0'] := by
      rw [natRepr_lt10 0 (by omega)]
      decide
    rw [h0]
    simp [scanIntPart]
  · rcases hsh : natRepr n with _ | ⟨c, ds⟩
    · exact absurd hsh (natRepr_ne_nil n)
    · have hdigs := natRepr_all_digits n
      have hcd : isAsciiDigit c = true := hdigs c (by rw [hsh]; simp)
      have hdsd : ∀ x ∈ ds, isAsciiDigit x = true := fun x hx =>
        hdigs x (by rw [hsh]; simp [hx])
      have hz : c ≠ '0' := by
        intro h
        exact hn0 (natRepr_head_zero n (by rw [hsh, h]; rfl))
      simp only [List.cons_append, scanIntPart, hz, if_false, hcd, if_true]
      rw [takeDigits_append ds rest hdsd hr]
      have hv : digitsVal (c :: ds) = n := by
        rw [← hsh]
        exact digitsVal_natRepr n
      simp [hv]

theorem scanNumber_intRepr (n : Int) (rest : List Char)
    (hr : notDigitStart rest) (hf : floatTailStarts rest = false) :
    scanNumber (intRepr n ++ rest) = some (n, rest) := by
  cases n with
  | ofNat m =>
    rcases hsh : natRepr m with _ | ⟨c, ds⟩
    · exact absurd hsh (natRepr_ne_nil m)
    · have hcd : isAsciiDigit c = true :=
        natRepr_all_digits m c (by rw [hsh]; simp)
      have hcm : c ≠ '-' := by
        intro h
        subst h
        exact absurd hcd (by decide)
      have hip := scanIntPart_natRepr m rest hr
      rw [hsh] at hip
      rw [show intRepr (Int.ofNat m) = natRepr m from rfl, hsh]
      simp only [List.cons_append, scanNumber, hcm, if_false]
      rw [show c :: (ds ++ rest) = (c :: ds) ++ rest from rfl, hip]
      simp [hf]
  | negSucc m =>
    have hip := scanIntPart_natRepr (m + 1) rest hr
    show scanNumber ('-' :: (natRepr (m + 1) ++ rest)) = _
    simp only [scanNumber, if_pos rfl, hip, hf]
    refine congrArg (fun z => some (z, rest)) ?_
    rw [Int.negSucc_eq]
    push_cast
    ring

/-!
## Round trip, stage 2: string literals
-/
theorem hexVal_hexDigitChar (m : Nat) (h : m < 16) :
    hexVal (hexDigitChar m) = some m := by
  interval_cases m <;> decide

theorem scanStringBody_short_escape (f : Nat) (e c : Char) (T : List Char)
    (hu : jsonUnescape e = some c) (hne : e ≠ 'u') :
    scanStringBody (f + 1) ('\\' :: e :: T) =
      (scanStringBody f T).map (fun p => (c :: p.1, p.2)) := by
  simp [scanStringBody, hne, hu]

theorem scanStringBody_u_escape (f : Nat) (c : Char) (T : List Char)
    (hlt : c.toNat < 32) :
    scanStringBody (f + 1)
      ('\\' :: 'u' :: '0' :: '0' :: hexDigitChar (c.toNat / 16) ::
        hexDigitChar (c.toNat % 16) :: T) =
      (scanStringBody f T).map (fun p => (c :: p.1, p.2)) := by
  have h1 : hexVal (hexDigitChar (c.toNat / 16)) = some (c.toNat / 16) :=
    hexVal_hexDigitChar _ (by omega)
  have h2 : hexVal (hexDigitChar (c.toNat % 16)) = some (c.toNat % 16) :=
    hexVal_hexDigitChar _ (by omega)
  have h0 : hexVal '0' = some 0 := by decide
  simp only [scanStringBody, parseHex4, h0, h1, h2]
  have hn : (((0 * 16 + 0) * 16 + c.toNat / 16) * 16 + c.toNat % 16) = c.toNat := by
    omega
  rw [hn]
  rw [if_neg (by omega : ¬(0xd800 ≤ c.toNat ∧ c.toNat ≤ 0xdbff))]
  simp

theorem scanStringBody_plain (f : Nat) (c : Char) (T : List Char)
    (h1 : c ≠ '"') (h2 : c ≠ '\\') (h3 : ¬ c.toNat < 32) :
    scanStringBody (f + 1) (c :: T) =
      (scanStringBody f T).map (fun p => (c :: p.1, p.2)) := by
  simp [scanStringBody, h1, h2, h3]

theorem scanStringBody_unescape (s : List Char) : ∀ fuel rest,
    ((s.map jsonEscapeChar).flatten).length < fuel →
    scanStringBody fuel ((s.map jsonEscapeChar).flatten ++ '"' :: rest) =
      some (s, rest) := by
  induction s with
  | nil =>
    intro fuel rest hf
    cases fuel with
    | zero => omega
    | succ f => simp [scanStringBody]
  | cons c cs ih =>
    intro fuel rest hf
    cases fuel with
    | zero => omega
    | succ f =>
      simp only [List.map_cons, List.flatten_cons, List.length_append] at hf
      simp only [List.map_cons, List.flatten_cons, List.append_assoc]
      by_cases h1 : c = '"'
      · subst h1
        have he : jsonEscapeChar '"' = ['\\', '"'] := by decide
        rw [he] at hf ⊢
        rw [show (['\\', '"'] : List Char) ++
            ((cs.map jsonEscapeChar).flatten ++ '"' :: rest) =
            '\\' :: '"' :: ((cs.map jsonEscapeChar).flatten ++ '"' :: rest) from rfl]
        rw [scanStringBody_short_escape f '"' '"' _ (by decide) (by decide)]
        rw [ih f rest (by simp only [List.length_cons, List.length_nil] at hf; omega)]
        rfl
      · by_cases h2 : c = '\\'
        · subst h2
          have he : jsonEscapeChar '\\' = ['\\', '\\'] := by decide
          rw [he] at hf ⊢
          rw [show (['\\', '\\'] : List Char) ++
              ((cs.map jsonEscapeChar).flatten ++ '"' :: rest) =
              '\\' :: '\\' :: ((cs.map jsonEscapeChar).flatten ++ '"' :: rest) from rfl]
          rw [scanStringBody_short_escape f '\\' '\\' _ (by decide) (by decide)]
          rw [ih f rest (by simp only [List.length_cons, List.length_nil] at hf; omega)]
          rfl
        · by_cases h3 : c.toNat = 8
          · have hc : c = '\x08' := Char.toNat_injective (by rw [h3]; decide)
            subst hc
            have he : jsonEscapeChar '\x08' = ['\\', 'b'] := by decide
            rw [he] at hf ⊢
            rw [show (['\\', 'b'] : List Char) ++
                ((cs.map jsonEscapeChar).flatten ++ '"' :: rest) =
                '\\' :: 'b' :: ((cs.map jsonEscapeChar).flatten ++ '"' :: rest) from rfl]
            rw [scanStringBody_short_escape f 'b' '\x08' _ (by decide) (by decide)]
            rw [ih f rest (by simp only [List.length_cons, List.length_nil] at hf; omega)]
            rfl
          · by_cases h4 : c.toNat = 9
            · have hc : c = '\t' := Char.toNat_injective (by rw [h4]; decide)
              subst hc
              have he : jsonEscapeChar '\t' = ['\\', 't'] := by decide
              rw [he] at hf ⊢
              rw [show (['\\', 't'] : List Char) ++
                  ((cs.map jsonEscapeChar).flatten ++ '"' :: rest) =
                  '\\' :: 't' :: ((cs.map jsonEscapeChar).flatten ++ '"' :: rest) from rfl]
              rw [scanStringBody_short_escape f 't' '\t' _ (by decide) (by decide)]
              rw [ih f rest (by simp only [List.length_cons, List.length_nil] at hf; omega)]
              rfl
            · by_cases h5 : c.toNat = 10
              · have hc : c = '\n' := Char.toNat_injective (by rw [h5]; decide)
                subst hc
                have he : jsonEscapeChar '\n' = ['\\', 'n'] := by decide
                rw [he] at hf ⊢
                rw [show (['\\', 'n'] : List Char) ++
                    ((cs.map jsonEscapeChar).flatten ++ '"' :: rest) =
                    '\\' :: 'n' :: ((cs.map jsonEscapeChar).flatten ++ '"' :: rest) from
                    rfl]
                rw [scanStringBody_short_escape f 'n' '\n' _ (by decide) (by decide)]
                rw [ih f rest (by simp only [List.length_cons, List.length_nil] at hf; omega)]
                rfl
              · by_cases h6 : c.toNat = 12
                · have hc : c = '\x0c' := Char.toNat_injective (by rw [h6]; decide)
                  subst hc
                  have he : jsonEscapeChar '\x0c' = ['\\', 'f'] := by decide
                  rw [he] at hf ⊢
                  rw [show (['\\', 'f'] : List Char) ++
                      ((cs.map jsonEscapeChar).flatten ++ '"' :: rest) =
                      '\\' :: 'f' :: ((cs.map jsonEscapeChar).flatten ++ '"' :: rest) from
                      rfl]
                  rw [scanStringBody_short_escape f 'f' '\x0c' _ (by decide) (by decide)]
                  rw [ih f rest (by simp only [List.length_cons, List.length_nil] at hf; omega)]
                  rfl
                · by_cases h7 : c.toNat = 13
                  · have hc : c = '\r' := Char.toNat_injective (by rw [h7]; decide)
                    subst hc
                    have he : jsonEscapeChar '\r' = ['\\', 'r'] := by decide
                    rw [he] at hf ⊢
                    rw [show (['\\', 'r'] : List Char) ++
                        ((cs.map jsonEscapeChar).flatten ++ '"' :: rest) =
                        '\\' :: 'r' :: ((cs.map jsonEscapeChar).flatten ++ '"' :: rest)
                        from rfl]
                    rw [scanStringBody_short_escape f 'r' '\r' _ (by decide) (by decide)]
                    rw [ih f rest (by simp only [List.length_cons, List.length_nil] at hf; omega)]
                    rfl
                  · by_cases h8 : c.toNat < 32
                    · have he : jsonEscapeChar c =
                          ['\\', 'u', '0', '0', hexDigitChar (c.toNat / 16),
                           hexDigitChar (c.toNat % 16)] := by
                        simp [jsonEscapeChar, h1, h2, h3, h4, h5, h6, h7, h8]
                      rw [he] at hf ⊢
                      rw [show (['\\', 'u', '0', '0', hexDigitChar (c.toNat / 16),
                            hexDigitChar (c.toNat % 16)] : List Char) ++
                          ((cs.map jsonEscapeChar).flatten ++ '"' :: rest) =
                          '\\' :: 'u' :: '0' :: '0' :: hexDigitChar (c.toNat / 16) ::
                            hexDigitChar (c.toNat % 16) ::
                            ((cs.map jsonEscapeChar).flatten ++ '"' :: rest) from rfl]
                      rw [scanStringBody_u_escape f c _ h8]
                      rw [ih f rest (by simp only [List.length_cons, List.length_nil] at hf; omega)]
                      rfl
                    · have he : jsonEscapeChar c = [c] := by
                        simp [jsonEscapeChar, h1, h2, h3, h4, h5, h6, h7, h8]
                      rw [he] at hf ⊢
                      rw [show ([c] : List Char) ++
                          ((cs.map jsonEscapeChar).flatten ++ '"' :: rest) =
                          c :: ((cs.map jsonEscapeChar).flatten ++ '"' :: rest) from rfl]
                      rw [scanStringBody_plain f c _ h1 h2 h8]
                      rw [ih f rest (by simp only [List.length_cons, List.length_nil] at hf; omega)]
                      rfl

theorem sepSafe_notDigit (rest : List Char) (h : sepSafe rest = true) :
    notDigitStart rest := by
  cases rest with
  | nil => trivial
  | cons c t =>
    simp only [sepSafe, Bool.and_eq_true, Bool.not_eq_true',
      decide_eq_false_iff_not] at h
    exact h.1.1.1

theorem sepSafe_float (rest : List Char) (h : sepSafe rest = true) :
    floatTailStarts rest = false := by
  cases rest with
  | nil => rfl
  | cons c t =>
    simp only [sepSafe, Bool.and_eq_true, Bool.not_eq_true',
      decide_eq_false_iff_not] at h
    simp only [floatTailStarts]
    rw [if_neg h.1.1.2, if_neg (by rintro (h1 | h1); exacts [h.1.2 h1, h.2 h1])]

theorem dictInsert_not_mem (k : List Char) (v : JVal)
    (acc : List (List Char × JVal)) (h : k ∉ acc.map Prod.fst) :
    dictInsert k v acc = acc ++ [(k, v)] := by
  induction acc with
  | nil => rfl
  | cons kv rest ih =>
    obtain ⟨k1, v1⟩ := kv
    simp only [List.map_cons, List.mem_cons] at h
    push_neg at h
    simp only [dictInsert]
    rw [if_neg (fun he : k1 = k => h.1 he.symm), ih h.2]
    rfl

theorem dictOfPairs_foldl (pairs : List (List Char × JVal)) :
    ∀ acc, (∀ k ∈ pairs.map Prod.fst, k ∉ acc.map Prod.fst) →
    noDupKeyList (pairs.map Prod.fst) = true →
    pairs.foldl (fun a kv => dictInsert kv.1 kv.2 a) acc = acc ++ pairs := by
  induction pairs with
  | nil =>
    intro acc _ _
    simp
  | cons kv rest ih =>
    intro acc hdisj hnd
    obtain ⟨k, v⟩ := kv
    simp only [List.map_cons, noDupKeyList, Bool.and_eq_true, Bool.not_eq_true',
      decide_eq_false_iff_not] at hnd
    simp only [List.foldl_cons]
    have hk : k ∉ acc.map Prod.fst := hdisj k (List.mem_cons_self _ _)
    rw [dictInsert_not_mem k v acc hk]
    have hdisj2 : ∀ k2 ∈ rest.map Prod.fst, k2 ∉ (acc ++ [(k, v)]).map Prod.fst := by
      intro k2 hk2
      simp only [List.map_append, List.mem_append, List.map_cons, List.map_nil,
        List.mem_singleton, not_or]
      exact ⟨hdisj k2 (List.mem_cons_of_mem _ hk2), fun he => hnd.1 (he ▸ hk2)⟩
    rw [ih (acc ++ [(k, v)]) hdisj2 hnd.2]
    simp

theorem dictOfPairs_nodup (pairs : List (List Char × JVal))
    (hnd : noDupKeyList (pairs.map Prod.fst) = true) :
    dictOfPairs pairs = pairs := by
  unfold dictOfPairs
  rw [dictOfPairs_foldl pairs [] (fun k _ => List.not_mem_nil k) hnd]
  simp

theorem skipWs_cons_ws (c : Char) (t : List Char) (h : jsonWsChar c = true) :
    skipWs (c :: t) = skipWs t := by
  simp [skipWs, h]

theorem skipWs_not_ws (c : Char) (t : List Char) (h : jsonWsChar c = false) :
    skipWs (c :: t) = c :: t := by
  simp [skipWs, h]

theorem skipWs_replicate_space (n : Nat) (s : List Char) :
    skipWs (List.replicate n ' ' ++ s) = skipWs s := by
  induction n with
  | zero => rfl
  | succ m ih =>
    rw [List.replicate_succ, List.cons_append, skipWs_cons_ws _ _ (by decide), ih]

theorem skipWs_indent (k : Nat) (s : List Char) :
    skipWs (jsonIndent k ++ s) = skipWs s :=
  skipWs_replicate_space (2 * k) s

theorem isAsciiDigit_not_special (c : Char) (hc : isAsciiDigit c = true) :
    ¬ c = '"' ∧ ¬ c = '\x7b' ∧ ¬ c = '[' ∧ ¬ c = 'n' ∧ ¬ c = 't' ∧ ¬ c = 'f' ∧
    ¬ c = '-' ∧ jsonWsChar c = false ∧ ¬ c = ']' := by
  refine ⟨?_, ?_, ?_, ?_, ?_, ?_, ?_, ?_, ?_⟩
  · intro h; subst h; exact absurd hc (by decide)
  · intro h; subst h; exact absurd hc (by decide)
  · intro h; subst h; exact absurd hc (by decide)
  · intro h; subst h; exact absurd hc (by decide)
  · intro h; subst h; exact absurd hc (by decide)
  · intro h; subst h; exact absurd hc (by decide)
  · intro h; subst h; exact absurd hc (by decide)
  · simp only [jsonWsChar, Bool.or_eq_false_iff, decide_eq_false_iff_not]
    refine ⟨⟨⟨?_, ?_⟩, ?_⟩, ?_⟩ <;> (intro h; subst h; exact absurd hc (by decide))
  · intro h; subst h; exact absurd hc (by decide)

theorem jsonEncode_head (v : JVal) (L : Nat) :
    ∃ c cs, jsonEncode v L = c :: cs ∧ jsonWsChar c = false ∧ ¬ c = ']' := by
  cases v with
  | null => exact ⟨'n', _, rfl, by decide, by decide⟩
  | bool b =>
    cases b with
    | true => exact ⟨'t', _, rfl, by decide, by decide⟩
    | false => exact ⟨'f', _, rfl, by decide, by decide⟩
  | num n =>
    cases n with
    | ofNat m =>
      rcases hsh : natRepr m with _ | ⟨c, ds⟩
      · exact absurd hsh (natRepr_ne_nil m)
      · have hc := natRepr_all_digits m c (by rw [hsh]; simp)
        have hfacts := isAsciiDigit_not_special c hc
        exact ⟨c, ds, by simp [jsonEncode, intRepr, hsh], hfacts.2.2.2.2.2.2.2.1,
          hfacts.2.2.2.2.2.2.2.2⟩
    | negSucc m => exact ⟨'-', _, rfl, by decide, by decide⟩
  | str s => exact ⟨'"', _, rfl, by decide, by decide⟩
  | arr xs =>
    cases xs with
    | nil => exact ⟨'[', _, rfl, by decide, by decide⟩
    | cons x rest => exact ⟨'[', _, rfl, by decide, by decide⟩
  | obj kvs =>
    cases kvs with
    | nil => exact ⟨'\x7b', _, rfl, by decide, by decide⟩
    | cons kv rest => exact ⟨'\x7b', _, rfl, by decide, by decide⟩

theorem jfuel_pos (v : JVal) : 1 ≤ jfuel v := by
  cases v <;> simp [jfuel]

theorem jfuelItems_pos (xs : List JVal) : 1 ≤ jfuelItems xs := by
  cases xs <;> simp [jfuelItems]

theorem jfuelMembers_pos (kvs : List (List Char × JVal)) : 1 ≤ jfuelMembers kvs := by
  cases kvs <;> simp [jfuelMembers]

mutual

theorem jfuel_le (v : JVal) (L : Nat) : jfuel v ≤ (jsonEncode v L).length + 1 := by
  cases v with
  | null =>
    simp only [jfuel]
    omega
  | bool b =>
    simp only [jfuel]
    omega
  | num n =>
    simp only [jfuel]
    omega
  | str s =>
    simp only [jfuel]
    omega
  | arr xs =>
    cases xs with
    | nil =>
      have h2 : (jsonEncode (JVal.arr []) L).length = 2 := rfl
      simp only [jfuel, jfuelItems]
      omega
    | cons x rest =>
      have h := jfuelItems_le (x :: rest) (L + 1) (by simp)
      simp only [jfuel, jsonEncode, List.length_cons, List.length_append,
        jsonIndent, List.length_replicate]
      omega
  | obj kvs =>
    cases kvs with
    | nil =>
      have h2 : (jsonEncode (JVal.obj []) L).length = 2 := rfl
      simp only [jfuel, jfuelMembers]
      omega
    | cons kv rest =>
      have h := jfuelMembers_le (kv :: rest) (L + 1) (by simp)
      simp only [jfuel, jsonEncode, List.length_cons, List.length_append,
        jsonIndent, List.length_replicate]
      omega

theorem jfuelItems_le (xs : List JVal) (L : Nat) (h : xs ≠ []) :
    jfuelItems xs ≤ (jsonEncodeItems xs L).length + 2 := by
  cases xs with
  | nil => exact absurd rfl h
  | cons x rest =>
    cases rest with
    | nil =>
      have h1 := jfuel_le x L
      simp only [jfuelItems, jsonEncodeItems]
      omega
    | cons y rest2 =>
      have h1 := jfuel_le x L
      have h2 := jfuelItems_le (y :: rest2) L (by simp)
      simp only [jfuelItems, jsonEncodeItems, List.length_append, List.length_cons,
        jsonIndent, List.length_replicate] at h2 ⊢
      omega

theorem jfuelMembers_le (kvs : List (List Char × JVal)) (L : Nat) (h : kvs ≠ []) :
    jfuelMembers kvs ≤ (jsonEncodeFields kvs L).length + 2 := by
  cases kvs with
  | nil => exact absurd rfl h
  | cons kv rest =>
    obtain ⟨k, v⟩ := kv
    cases rest with
    | nil =>
      have h1 := jfuel_le v L
      simp only [jfuelMembers, jsonEncodeFields, List.length_append, List.length_cons]
      omega
    | cons kv2 rest2 =>
      have h1 := jfuel_le v L
      have h2 := jfuelMembers_le (kv2 :: rest2) L (by simp)
      simp only [jfuelMembers, jsonEncodeFields, List.length_append, List.length_cons,
        jsonIndent, List.length_replicate] at h2 ⊢
      omega

end

theorem jsonEncodeItems_head (x : JVal) (xs : List JVal) (L : Nat) :
    ∃ c cs, jsonEncodeItems (x :: xs) L = c :: cs ∧ jsonWsChar c = false ∧
      ¬ c = ']' := by
  obtain ⟨c, cs, hhead, hws, hbr⟩ := jsonEncode_head x L
  cases xs with
  | nil => exact ⟨c, cs, by simp [jsonEncodeItems, hhead], hws, hbr⟩
  | cons y rest =>
    refine ⟨c, cs ++ (',' :: '\n' :: jsonIndent L ++
      jsonEncodeItems (y :: rest) L), ?_, hws, hbr⟩
    simp [jsonEncodeItems, hhead]

theorem jsonEncodeFields_head (kv : List Char × JVal)
    (kvs : List (List Char × JVal)) (L : Nat) :
    ∃ cs, jsonEncodeFields (kv :: kvs) L = '"' :: cs := by
  obtain ⟨k, v⟩ := kv
  cases kvs with
  | nil =>
    refine ⟨(k.map jsonEscapeChar).flatten ++ '"' :: ':' :: ' ' :: jsonEncode v L, ?_⟩
    simp [jsonEncodeFields, jsonEncodeString]
  | cons kv2 rest =>
    refine ⟨(k.map jsonEscapeChar).flatten ++ '"' :: ':' :: ' ' :: jsonEncode v L ++
      ',' :: '\n' :: jsonIndent L ++ jsonEncodeFields (kv2 :: rest) L, ?_⟩
    simp [jsonEncodeFields, jsonEncodeString]

/-!
## Round trip, stage 4: the scanner inverts the encoder
-/
theorem scanValue_quote (f : Nat) (r : List Char) :
    scanValue (f + 1) ('"' :: r) =
      (scanStringBody (r.length + 1) r).map (fun p => (JVal.str p.1, p.2)) := by
  simp [scanValue]

theorem scanValue_lbrack (f : Nat) (r : List Char) :
    scanValue (f + 1) ('[' :: r) =
      (match skipWs r with
       | [] => none
       | d :: rr =>
         if d = ']' then some (JVal.arr [], rr)
         else (scanItems f (d :: rr)).map (fun p => (JVal.arr p.1, p.2))) := by
  simp [scanValue]

theorem scanValue_lbrace (f : Nat) (r : List Char) :
    scanValue (f + 1) ('\x7b' :: r) =
      (match skipWs r with
       | [] => none
       | d :: rr =>
         if d = '\x7d' then some (JVal.obj [], rr)
         else if d = '"' then
           (scanMembers f (d :: rr)).map (fun p => (JVal.obj (dictOfPairs p.1), p.2))
         else none) := by
  simp [scanValue]

theorem scanValue_minus (f : Nat) (r : List Char) :
    scanValue (f + 1) ('-' :: r) =
      (scanNumber ('-' :: r)).map (fun p => (JVal.num p.1, p.2)) := by
  simp [scanValue]

theorem scanValue_digit (f : Nat) (c : Char) (r : List Char)
    (hc : isAsciiDigit c = true) :
    scanValue (f + 1) (c :: r) =
      (scanNumber (c :: r)).map (fun p => (JVal.num p.1, p.2)) := by
  obtain ⟨hq, hbr, hlb, hn, ht, hfc, hmn, hws, hrb⟩ := isAsciiDigit_not_special c hc
  simp [scanValue, hq, hbr, hlb, hn, ht, hfc]

mutual

theorem scanValue_encode (fuel : Nat) (v : JVal) (L : Nat) (rest : List Char)
    (hfu : jfuel v ≤ fuel) (hsafe : sepSafe rest = true)
    (hnd : jNodupKeys v = true) :
    scanValue fuel (jsonEncode v L ++ rest) = some (v, rest) := by
  cases fuel with
  | zero =>
    have := jfuel_pos v
    omega
  | succ f =>
    cases v with
    | null =>
      rw [show jsonEncode JVal.null L ++ rest = 'n' :: 'u' :: 'l' :: 'l' :: rest from rfl]
      rfl
    | bool b =>
      cases b with
      | true =>
        rw [show jsonEncode (JVal.bool true) L ++ rest =
          't' :: 'r' :: 'u' :: 'e' :: rest from rfl]
        rfl
      | false =>
        rw [show jsonEncode (JVal.bool false) L ++ rest =
          'f' :: 'a' :: 'l' :: 's' :: 'e' :: rest from rfl]
        rfl
    | num n =>
      have hr := sepSafe_notDigit rest hsafe
      have hfl := sepSafe_float rest hsafe
      have hnum := scanNumber_intRepr n rest hr hfl
      cases n with
      | ofNat m =>
        rcases hsh : natRepr m with _ | ⟨c, ds⟩
        · exact absurd hsh (natRepr_ne_nil m)
        · have hc := natRepr_all_digits m c (by rw [hsh]; simp)
          rw [show intRepr (Int.ofNat m) = natRepr m from rfl, hsh,
            List.cons_append] at hnum
          rw [show jsonEncode (JVal.num (Int.ofNat m)) L ++ rest =
            c :: (ds ++ rest) from by
              show intRepr (Int.ofNat m) ++ rest = _
              rw [show intRepr (Int.ofNat m) = natRepr m from rfl, hsh,
                List.cons_append]]
          rw [scanValue_digit f c _ hc, hnum]
          rfl
      | negSucc m =>
        rw [show jsonEncode (JVal.num (Int.negSucc m)) L ++ rest =
          '-' :: (natRepr (m + 1) ++ rest) from rfl]
        rw [scanValue_minus,
          show '-' :: (natRepr (m + 1) ++ rest) = intRepr (Int.negSucc m) ++ rest
            from rfl, hnum]
        rfl
    | str s =>
      rw [show jsonEncode (JVal.str s) L ++ rest =
        '"' :: ((s.map jsonEscapeChar).flatten ++ '"' :: rest) from by
          show jsonEncodeString s ++ rest = _
          simp [jsonEncodeString]]
      rw [scanValue_quote,
        scanStringBody_unescape s
          (((s.map jsonEscapeChar).flatten ++ '"' :: rest).length + 1) rest
          (by simp only [List.length_append, List.length_cons]; omega)]
      rfl
    | arr xs =>
      cases xs with
      | nil =>
        rw [show jsonEncode (JVal.arr []) L ++ rest = '[' :: ']' :: rest from rfl]
        rfl
      | cons x xs2 =>
        simp only [jfuel] at hfu
        simp only [jNodupKeys] at hnd
        obtain ⟨c, cs, hhead, hws, hbr⟩ := jsonEncodeItems_head x xs2 (L + 1)
        have hitems := scanItems_encode f (x :: xs2) L rest (by simp)
          (by omega) hnd
        rw [show jsonEncode (JVal.arr (x :: xs2)) L ++ rest =
          '[' :: ('\n' :: (jsonIndent (L + 1) ++
            (jsonEncodeItems (x :: xs2) (L + 1) ++
              ('\n' :: (jsonIndent L ++ ']' :: rest))))) from by
            show ('[' :: '\n' :: jsonIndent (L + 1) ++
              jsonEncodeItems (x :: xs2) (L + 1) ++
              '\n' :: jsonIndent L ++ [']']) ++ rest = _
            simp [List.append_assoc]]
        rw [scanValue_lbrack]
        rw [skipWs_cons_ws '\n' _ (by decide), skipWs_indent, hhead,
          List.cons_append, skipWs_not_ws c _ hws]
        simp only [hbr, if_false]
        rw [← List.cons_append, ← hhead]
        have hitems2 := hitems
        simp only [List.append_assoc, List.cons_append] at hitems2 ⊢
        rw [hitems2]
        rfl
    | obj kvs =>
      cases kvs with
      | nil =>
        rw [show jsonEncode (JVal.obj []) L ++ rest = '\x7b' :: '\x7d' :: rest from rfl]
        rfl
      | cons kv kvs2 =>
        simp only [jfuel] at hfu
        simp only [jNodupKeys, Bool.and_eq_true] at hnd
        obtain ⟨cs, hhead⟩ := jsonEncodeFields_head kv kvs2 (L + 1)
        have hmem := scanMembers_encode f (kv :: kvs2) L rest (by simp)
          (by omega) hnd.2
        rw [show jsonEncode (JVal.obj (kv :: kvs2)) L ++ rest =
          '\x7b' :: ('\n' :: (jsonIndent (L + 1) ++
            (jsonEncodeFields (kv :: kvs2) (L + 1) ++
              ('\n' :: (jsonIndent L ++ '\x7d' :: rest))))) from by
            show ('\x7b' :: '\n' :: jsonIndent (L + 1) ++
              jsonEncodeFields (kv :: kvs2) (L + 1) ++
              '\n' :: jsonIndent L ++ ['\x7d']) ++ rest = _
            simp [List.append_assoc]]
        rw [scanValue_lbrace]
        rw [skipWs_cons_ws '\n' _ (by decide), skipWs_indent, hhead,
          List.cons_append, skipWs_not_ws '"' _ (by decide)]
        simp only [if_neg (by decide : ¬('"' : Char) = '\x7d'), if_true, ite_true]
        rw [← List.cons_append, ← hhead]
        have hmem2 := hmem
        simp only [List.append_assoc, List.cons_append] at hmem2 ⊢
        rw [hmem2]
        simp only [Option.map_some']
        rw [dictOfPairs_nodup (kv :: kvs2) hnd.1]
  termination_by fuel

theorem scanItems_encode (fuel : Nat) (xs : List JVal) (L : Nat) (rest : List Char)
    (hne : xs ≠ []) (hfu : jfuelItems xs ≤ fuel)
    (hnd : jNodupKeysItems xs = true) :
    scanItems fuel (jsonEncodeItems xs (L + 1) ++
      '\n' :: jsonIndent L ++ ']' :: rest) = some (xs, rest) := by
  cases fuel with
  | zero =>
    have := jfuelItems_pos xs
    omega
  | succ f =>
    cases xs with
    | nil => exact absurd rfl hne
    | cons x xs2 =>
      simp only [jfuelItems] at hfu
      simp only [jNodupKeysItems, Bool.and_eq_true] at hnd
      cases xs2 with
      | nil =>
        have hval := scanValue_encode f x (L + 1)
          ('\n' :: (jsonIndent L ++ ']' :: rest)) (by omega) rfl hnd.1
        rw [show jsonEncodeItems [x] (L + 1) ++ '\n' :: jsonIndent L ++ ']' :: rest =
          jsonEncode x (L + 1) ++ ('\n' :: (jsonIndent L ++ ']' :: rest)) from by
            simp [jsonEncodeItems]]
        simp only [scanItems, hval, Option.some_bind]
        rw [skipWs_cons_ws '\n' _ (by decide), skipWs_indent,
          skipWs_not_ws ']' _ (by decide)]
        rfl
      | cons y xs3 =>
        have hval := scanValue_encode f x (L + 1)
          (',' :: ('\n' :: (jsonIndent (L + 1) ++
            (jsonEncodeItems (y :: xs3) (L + 1) ++
              ('\n' :: (jsonIndent L ++ ']' :: rest))))))
          (by omega) rfl hnd.1
        have htail := scanItems_encode f (y :: xs3) L rest (by simp)
          (by omega) hnd.2
        obtain ⟨c, cs, hhead, hws, hbr⟩ := jsonEncodeItems_head y xs3 (L + 1)
        have hskip2 : skipWs ('\n' :: (jsonIndent (L + 1) ++
            (jsonEncodeItems (y :: xs3) (L + 1) ++
              ('\n' :: (jsonIndent L ++ ']' :: rest))))) =
            jsonEncodeItems (y :: xs3) (L + 1) ++
              ('\n' :: (jsonIndent L ++ ']' :: rest)) := by
          rw [skipWs_cons_ws '\n' _ (by decide), skipWs_indent, hhead,
            List.cons_append, skipWs_not_ws c _ hws, ← List.cons_append, ← hhead]
        rw [show jsonEncodeItems (x :: y :: xs3) (L + 1) ++
          '\n' :: jsonIndent L ++ ']' :: rest =
          jsonEncode x (L + 1) ++ (',' :: ('\n' :: (jsonIndent (L + 1) ++
            (jsonEncodeItems (y :: xs3) (L + 1) ++
              ('\n' :: (jsonIndent L ++ ']' :: rest)))))) from by
            simp [jsonEncodeItems, List.append_assoc]]
        simp only [scanItems, hval, Option.some_bind]
        rw [skipWs_not_ws ',' _ (by decide)]
        simp only [hskip2]
        have htail2 := htail
        simp only [List.append_assoc, List.cons_append] at htail2 ⊢
        rw [htail2]
        rfl
  termination_by fuel

theorem scanMembers_encode (fuel : Nat) (kvs : List (List Char × JVal)) (L : Nat)
    (rest : List Char) (hne : kvs ≠ []) (hfu : jfuelMembers kvs ≤ fuel)
    (hnd : jNodupKeysMembers kvs = true) :
    scanMembers fuel (jsonEncodeFields kvs (L + 1) ++
      '\n' :: jsonIndent L ++ '\x7d' :: rest) = some (kvs, rest) := by
  cases fuel with
  | zero =>
    have := jfuelMembers_pos kvs
    omega
  | succ f =>
    cases kvs with
    | nil => exact absurd rfl hne
    | cons kv kvs2 =>
      obtain ⟨k, v⟩ := kv
      simp only [jfuelMembers] at hfu
      simp only [jNodupKeysMembers, Bool.and_eq_true] at hnd
      obtain ⟨cv, csv, hheadv, hwsv, hbrv⟩ := jsonEncode_head v (L + 1)
      cases kvs2 with
      | nil =>
        have hval := scanValue_encode f v (L + 1)
          ('\n' :: (jsonIndent L ++ '\x7d' :: rest)) (by omega) rfl hnd.1
        have hskipv : skipWs (' ' :: (jsonEncode v (L + 1) ++
            ('\n' :: (jsonIndent L ++ '\x7d' :: rest)))) =
            jsonEncode v (L + 1) ++ ('\n' :: (jsonIndent L ++ '\x7d' :: rest)) := by
          rw [skipWs_cons_ws ' ' _ (by decide), hheadv, List.cons_append,
            skipWs_not_ws cv _ hwsv, ← List.cons_append, ← hheadv]
        rw [show jsonEncodeFields [(k, v)] (L + 1) ++
          '\n' :: jsonIndent L ++ '\x7d' :: rest =
          '"' :: ((k.map jsonEscapeChar).flatten ++
            '"' :: (':' :: (' ' :: (jsonEncode v (L + 1) ++
              ('\n' :: (jsonIndent L ++ '\x7d' :: rest)))))) from by
            simp [jsonEncodeFields, jsonEncodeString, List.append_assoc]]
        simp only [scanMembers]
        rw [scanStringBody_unescape k _ _
          (by simp only [List.length_append, List.length_cons]; omega)]
        simp only [Option.some_bind]
        rw [skipWs_not_ws ':' _ (by decide)]
        simp only [hskipv, hval, Option.some_bind]
        rw [skipWs_cons_ws '\n' _ (by decide), skipWs_indent,
          skipWs_not_ws '\x7d' _ (by decide)]
        rfl
      | cons kv2 kvs3 =>
        obtain ⟨cs2, hhead2⟩ := jsonEncodeFields_head kv2 kvs3 (L + 1)
        have hval := scanValue_encode f v (L + 1)
          (',' :: ('\n' :: (jsonIndent (L + 1) ++
            (jsonEncodeFields (kv2 :: kvs3) (L + 1) ++
              ('\n' :: (jsonIndent L ++ '\x7d' :: rest))))))
          (by omega) rfl hnd.1
        have htail := scanMembers_encode f (kv2 :: kvs3) L rest (by simp)
          (by omega) hnd.2
        have hskipv : skipWs (' ' :: (jsonEncode v (L + 1) ++
            (',' :: ('\n' :: (jsonIndent (L + 1) ++
              (jsonEncodeFields (kv2 :: kvs3) (L + 1) ++
                ('\n' :: (jsonIndent L ++ '\x7d' :: rest)))))))) =
            jsonEncode v (L + 1) ++ (',' :: ('\n' :: (jsonIndent (L + 1) ++
              (jsonEncodeFields (kv2 :: kvs3) (L + 1) ++
                ('\n' :: (jsonIndent L ++ '\x7d' :: rest)))))) := by
          rw [skipWs_cons_ws ' ' _ (by decide), hheadv, List.cons_append,
            skipWs_not_ws cv _ hwsv, ← List.cons_append, ← hheadv]
        have hskipn : skipWs ('\n' :: (jsonIndent (L + 1) ++
            (jsonEncodeFields (kv2 :: kvs3) (L + 1) ++
              ('\n' :: (jsonIndent L ++ '\x7d' :: rest))))) =
            jsonEncodeFields (kv2 :: kvs3) (L + 1) ++
              ('\n' :: (jsonIndent L ++ '\x7d' :: rest)) := by
          rw [skipWs_cons_ws '\n' _ (by decide), skipWs_indent, hhead2,
            List.cons_append, skipWs_not_ws '"' _ (by decide), ← List.cons_append,
            ← hhead2]
        rw [show jsonEncodeFields ((k, v) :: kv2 :: kvs3) (L + 1) ++
          '\n' :: jsonIndent L ++ '\x7d' :: rest =
          '"' :: ((k.map jsonEscapeChar).flatten ++
            '"' :: (':' :: (' ' :: (jsonEncode v (L + 1) ++
              (',' :: ('\n' :: (jsonIndent (L + 1) ++
                (jsonEncodeFields (kv2 :: kvs3) (L + 1) ++
                  ('\n' :: (jsonIndent L ++ '\x7d' :: rest)))))))))) from by
            simp [jsonEncodeFields, jsonEncodeString, List.append_assoc]]
        simp only [scanMembers]
        rw [scanStringBody_unescape k _ _
          (by simp only [List.length_append, List.length_cons]; omega)]
        simp only [Option.some_bind]
        rw [skipWs_not_ws ':' _ (by decide)]
        simp only [hskipv, hval, Option.some_bind]
        rw [skipWs_not_ws ',' _ (by decide)]
        simp only [hskipn]
        simp only [hhead2, List.cons_append]
        rw [← List.cons_append, ← hhead2]
        have htail2 := htail
        simp only [List.append_assoc, List.cons_append] at htail2 ⊢
        rw [htail2]
        rfl
  termination_by fuel

end

theorem json_loads_dump (v : JVal) (hnd : jNodupKeys v = true) :
    json_loads (json_dump v) = some v := by
  unfold json_loads json_dump
  obtain ⟨c, cs, hhead, hws, _⟩ := jsonEncode_head v 0
  rw [hhead, skipWs_not_ws c _ hws, ← hhead]
  have hmain := scanValue_encode ((jsonEncode v 0).length + 1) v 0 []
    (by have := jfuel_le v 0; omega) rfl hnd
  rw [List.append_nil] at hmain
  rw [hmain]
  rfl

/-- Claim C5: Saving a JSON value writes the UTF-8 dump (two-space indent,
non-ASCII preserved) to `whatsapp_data_{number}_{YYYYMMDD_HHMMSS}.json`,
and re-reading that file with `json.load` yields a value equal to the one
passed in. The hypothesis `jNodupKeys` says the value's objects have
pairwise distinct keys, which is automatic for a value that exists as a
Python dictionary. -/
theorem C5_save_round_trip (data : JVal) (number : List Char) (now : PyDateTime)
    (hnd : jNodupKeys data = true) :
    (save_result_to_file true data number now).writes =
      [(save_filename number now, json_dump data)] ∧
    json_loads (json_dump data) = some data :=
  ⟨rfl, json_loads_dump data hnd⟩

theorem C5_save_round_trip_witness :
    jNodupKeys c5Sample = true ∧
    json_loads (json_dump c5Sample) = some c5Sample :=
  ⟨rfl, (C5_save_round_trip c5Sample ("5215512345678".toList)
      ⟨2024, 1, 1, 0, 0, 0⟩ rfl).2⟩
